import Mathlib

/-!
Verification development for the managed code-index core of this repository:
the GitWatcher event source (shared/GitWatcher.ts) and the ManagedIndexer
orchestrator (services/code-index/managed/ManagedIndexer.ts).

The embedding is shallow: the relevant TypeScript functions are translated
into executable Lean definitions.  Asynchronous code is modelled by explicit
state passing; each maximal await-free section of an async function becomes
one atomic step, matching the single-threaded cooperative scheduling of the
host.  Machine strings are Lean strings (lists of characters).
-/

namespace ManagedIndexing

/-! ## Character and string primitives used by GitWatcher

The watcher parses the output of git ls-files with
line.trim().split(per run of whitespace) and re-joins the path fields with
single spaces.  We model the JavaScript operations on the character list of
the string.  The JavaScript whitespace class also contains some Unicode
space code points beyond the ASCII range; the records handled here are
compared only through this ASCII fragment. -/

/-- Whitespace test matching the JavaScript regular-expression whitespace
class on the ASCII range: space, tab, line feed, vertical tab, form feed
and carriage return. -/
def isJsWs (c : Char) : Bool :=
  c = ' ' || c = '\t' || c = '\n' || c = '\x0b' || c = '\x0c' || c = '\r'

/-- JavaScript String.prototype.trim on the character list: drop leading and
trailing whitespace. -/
def trimChars (s : List Char) : List Char :=
  ((s.dropWhile isJsWs).reverse.dropWhile isJsWs).reverse

/-- Helper for splitWs: accumulates the current run of non-whitespace
characters (in reverse) and closes it at each whitespace character. -/
def wordsAux : List Char → List Char → List (List Char)
  | [], acc => if acc.isEmpty then [] else [acc.reverse]
  | c :: rest, acc =>
    if isJsWs c then
      if acc.isEmpty then wordsAux rest []
      else acc.reverse :: wordsAux rest []
    else wordsAux rest (c :: acc)

/-- The maximal runs of non-whitespace characters of s.  For a trimmed
string, that is, one with no leading and no trailing whitespace, this is
exactly what the JavaScript split on one-or-more-whitespace returns (on a
string with leading whitespace JavaScript would prepend one empty field;
the source only ever splits trimmed strings). -/
def splitWs (s : List Char) : List (List Char) :=
  wordsAux s []

/-- JavaScript Array.prototype.join with a single space, on character
lists. -/
def joinSpaces (parts : List (List Char)) : List Char :=
  List.intercalate [' '] parts

/-- JavaScript Array.prototype.join with a single space, on strings. -/
def spaceJoin (parts : List String) : String :=
  String.mk (joinSpaces (parts.map String.data))

/-- JavaScript String.prototype.toLowerCase restricted to the ASCII
letters; the branch names compared by the watcher live in this fragment. -/
def jsToLower (s : String) : String :=
  String.mk (s.data.map Char.toLower)

/-! ## GitWatcher: parsing git ls-files records -/

/-- The fields the scan loops extract from one git ls-files -s output
line. -/
structure ParsedLsLine where
  fileHash : String
  filePath : String
  deriving DecidableEq

/-- One iteration of the parsing loop that appears verbatim in both
GitWatcher.scanAllFiles and GitWatcher.scanDiffFiles: trim the line, skip a
blank line, split on runs of whitespace, skip a line with fewer than four
fields, otherwise read field 1 as the hash and re-join the fields from
index 3 with single spaces as the path.  The getD defaults are unreachable
because the length guard ensures at least four fields. -/
def parseLsFilesLine (line : String) : Option ParsedLsLine :=
  if (trimChars line.data).isEmpty then none
  else if (splitWs (trimChars line.data)).length < 4 then none
  else
    some { fileHash := String.mk (((splitWs (trimChars line.data)).get? 1).getD [])
           filePath := String.mk (joinSpaces ((splitWs (trimChars line.data)).drop 3)) }

/-- A mode-hash-stage-path record as emitted by git ls-files -s for one
tracked file. -/
def mkLsRecord (mode hash stage path : String) : String :=
  mode ++ " " ++ hash ++ " " ++ stage ++ " " ++ path

/-! ## GitWatcher: events and the two scanning strategies -/

/-- The discriminated event union emitted by GitWatcher.  The source events
also carry a back-reference to the emitting watcher; that reference is a
pure identity key and is modelled at the orchestrator level by a numeric
watcher identity carried next to the event. -/
inductive WatcherEvent where
  | scanStart (branch : String) (isBaseBranch : Bool)
  | scanEnd (branch : String) (isBaseBranch : Bool)
  | fileChanged (filePath : String) (fileHash : String) (branch : String) (isBaseBranch : Bool)
  | fileDeleted (filePath : String) (branch : String) (isBaseBranch : Bool)
  | branchChanged (previousBranch : String) (newBranch : String) (branch : String)
      (isBaseBranch : Bool)
  deriving DecidableEq

/-- The file-changed event built from one parsed ls-files record. -/
def parsedToEvent (branch : String) (isBase : Bool) (p : ParsedLsLine) : WatcherEvent :=
  WatcherEvent.fileChanged p.filePath p.fileHash branch isBase

/-- GitWatcher.scanAllFiles: on the default branch the watcher runs the
single command git ls-files -s, parses every yielded line with the loop
above, and emits scan-start, one file-changed per parsed line, scan-end.
The first component is the list of git commands issued, the second the
emitted event sequence.  The subprocess output lines are a parameter. -/
def scanAllFiles (branch : String) (lines : List String) :
    List String × List WatcherEvent :=
  (["git ls-files -s"],
    WatcherEvent.scanStart branch true
      :: (lines.filterMap fun line => (parseLsFilesLine line).map (parsedToEvent branch true))
      ++ [WatcherEvent.scanEnd branch true])

/-- The added, modified and deleted path sets computed by getGitDiff
relative to the base branch. -/
structure GitDiff where
  added : List String
  modified : List String
  deleted : List String
  deriving DecidableEq

/-- The quoting applied to each path of the batched lookup. -/
def quoteArg (f : String) : String :=
  "\"" ++ f ++ "\""

/-- The single batched hash-lookup command built by scanDiffFiles: every
added or modified path quoted and joined with spaces after
git ls-files -s. -/
def batchedLsFilesCmd (files : List String) : String :=
  "git ls-files -s " ++ spaceJoin (files.map quoteArg)

/-- GitWatcher.scanDiffFiles: on a feature branch the watcher emits
scan-start with isBaseBranch false, one file-deleted per path deleted
relative to the base branch, then for the concatenation of added and
modified paths either returns after scan-end when that set is empty, or
issues the one batched lookup command, emits one file-changed per parsed
output line, and emits scan-end.  The subprocess output lines of the
batched command are a parameter; the base branch argument of the source
function is consumed only by the getGitDiff call whose result is the diff
parameter. -/
def scanDiffFiles (currentBranch : String) (diff : GitDiff) (lookupLines : List String) :
    List String × List WatcherEvent :=
  if (diff.added ++ diff.modified).isEmpty then
    ([], WatcherEvent.scanStart currentBranch false
          :: diff.deleted.map (fun f => WatcherEvent.fileDeleted f currentBranch false)
          ++ [WatcherEvent.scanEnd currentBranch false])
  else
    ([batchedLsFilesCmd (diff.added ++ diff.modified)],
      WatcherEvent.scanStart currentBranch false
        :: diff.deleted.map (fun f => WatcherEvent.fileDeleted f currentBranch false)
        ++ (lookupLines.filterMap fun line =>
              (parseLsFilesLine line).map (parsedToEvent currentBranch false))
        ++ [WatcherEvent.scanEnd currentBranch false])

/-- GitWatcher.scan: return silently in detached-HEAD state, otherwise
compare the current branch with the resolved default branch
case-insensitively and run the full or the differential scan.  The results
of the suspending git primitives (detached check, branches, ls-files
output, diff) are parameters. -/
def scan (isDetached : Bool) (currentBranch defaultBranch : String)
    (fullLines : List String) (diff : GitDiff) (lookupLines : List String) :
    List String × List WatcherEvent :=
  if isDetached then ([], [])
  else if jsToLower currentBranch = jsToLower defaultBranch then
    scanAllFiles currentBranch fullLines
  else
    scanDiffFiles currentBranch diff lookupLines

/-! ## GitWatcher: live change handling -/

/-- The cached branch, commit and detachment snapshot held by the
watcher. -/
structure GitStateSnapshot where
  branch : String
  commit : String
  isDetached : Bool
  deriving DecidableEq

/-- The externally visible actions of one change-handling cycle, in order:
event emissions and the one possible rescan invocation. -/
inductive WatcherAction where
  | emit (e : WatcherEvent)
  | scanCall
  deriving DecidableEq

/-- GitWatcher.handleGitChange as one state transformer per trigger.
Inputs: the reentrancy flag, the cached snapshot, the freshly observed
detachment, branch and commit, the resolved default branch, and whether the
rescan invoked inside the cycle throws.  Output: the new cached snapshot
and the ordered action list.  Transcription notes: a trigger arriving while
isProcessing holds is dropped; a detached observation clears the snapshot
and stops; with a cached snapshot and no change the cycle returns before
the snapshot assignment (the assignment would be the identity there); on a
branch change, the branch-changed event, whose isBaseBranch flag compares
the new branch with the default branch case-insensitively, is emitted
before the rescan; an exception of the rescan is caught and logged by the
cycle but skips the snapshot assignment (the default-branch resolution
before the emission can throw with the same effect and is not separately
modelled); with no cached snapshot the observed snapshot is recorded without a
rescan. -/
def handleGitChange (isProcessing : Bool) (cached : Option GitStateSnapshot)
    (obsDetached : Bool) (obsBranch obsCommit : String) (defaultBranch : String)
    (scanThrows : Bool) : Option GitStateSnapshot × List WatcherAction :=
  if isProcessing then (cached, [])
  else if obsDetached then (none, [])
  else
    let newState : GitStateSnapshot := ⟨obsBranch, obsCommit, false⟩
    match cached with
    | some cur =>
      let branchDiffers := cur.branch ≠ newState.branch
      let commitDiffers := cur.commit ≠ newState.commit
      if ¬branchDiffers ∧ ¬commitDiffers then (cached, [])
      else
        let isBase := jsToLower newState.branch == jsToLower defaultBranch
        let emits : List WatcherAction :=
          if branchDiffers then
            [WatcherAction.emit
              (WatcherEvent.branchChanged cur.branch newState.branch newState.branch isBase)]
          else []
        if scanThrows then (cached, emits ++ [WatcherAction.scanCall])
        else (some newState, emits ++ [WatcherAction.scanCall])
    | none => (some newState, [])

/-! ## ManagedIndexer: data model -/

/-- One file entry of the remote manifest. -/
structure ManifestFile where
  filePath : String
  fileHash : String
  deriving DecidableEq

/-- The remote manifest: the files already indexed for a project and
branch. -/
structure ServerManifest where
  files : List ManifestFile
  deriving DecidableEq

/-- The error categories of ManagedIndexerError. -/
inductive ErrorKind where
  | setup
  | scan
  | fileUpsert
  | git
  | manifest
  | config
  deriving DecidableEq

/-- ManagedIndexerWorkspaceFolderState.  The watcher field holds the
identity of the GitWatcher owned by the root, none when no watcher was
constructed; the in-flight manifest fetch promise is modelled by the
numeric identity of the pending fetch task; lastError is tracked through
its kind. -/
structure RootState where
  watcher : Option Nat
  gitBranch : Option String
  projectId : Option String
  manifest : Option ServerManifest
  isIndexing : Bool
  repositoryUrl : Option String
  errorKind : Option ErrorKind
  manifestFetchPromise : Option Nat
  deriving DecidableEq

/-! ## ManagedIndexer: manifest fetch with single-flight dedup

getManifest in the source is an async method whose own body has no
suspension point: it checks the in-flight promise, checks the cached
manifest, records the target branch, starts the fetch task and returns,
all before yielding.  It is therefore one atomic step of the cooperative
scheduler.  The started fetch task suspends on its remote calls and its
continuation runs atomically when they resolve; that continuation is the
separate step completeFetch below. -/

/-- What a getManifest call hands back to its caller. -/
inductive ManifestCall where
  | reuse (fid : Nat)
  | cached (m : ServerManifest)
  | started (fid : Nat)
  deriving DecidableEq

/-- The atomic body of ManagedIndexer.getManifest: if a fetch promise is
present and the recorded branch equals the target branch, return that
pending promise; else if a manifest is cached and the recorded branch
equals the target branch, return it; otherwise record the target branch
before the fetch starts, start a fresh fetch task and cache its promise.
freshFid is the identity of the new task; the getD defaults are
unreachable under the guards. -/
def getManifestStep (st : RootState) (branch : String) (freshFid : Nat) :
    RootState × ManifestCall :=
  if st.manifestFetchPromise ≠ none ∧ st.gitBranch = some branch then
    (st, ManifestCall.reuse (st.manifestFetchPromise.getD 0))
  else if st.manifest ≠ none ∧ st.gitBranch = some branch then
    (st, ManifestCall.cached (st.manifest.getD { files := [] }))
  else
    ({ st with gitBranch := some branch, manifestFetchPromise := some freshFid },
      ManifestCall.started freshFid)

/-- How a fetch task ends: the config resolver produced a project id and
the manifest request succeeded, or any of the steps threw (missing project
id, missing token or organization, rejected request). -/
inductive FetchOutcome where
  | ok (projectId : String) (m : ServerManifest)
  | fail
  deriving DecidableEq

/-- The continuation of the fetch task started by getManifest: on success
store the re-resolved project id and the fetched manifest and clear a
stale manifest-kind error; on failure record a manifest-kind error; in
both cases the finally block clears the in-flight promise field
unconditionally, even when that field meanwhile refers to a younger fetch.
The source stores the project id before awaiting the manifest request;
merging that store into the completion is sound because no other step of
the modelled claims reads it in between. -/
def completeFetch (st : RootState) (outcome : FetchOutcome) : RootState :=
  match outcome with
  | FetchOutcome.ok pid m =>
    let st1 := { st with projectId := some pid, manifest := some m }
    let st2 :=
      if st1.errorKind = some ErrorKind.manifest then { st1 with errorKind := none } else st1
    { st2 with manifestFetchPromise := none }
  | FetchOutcome.fail =>
    { st with errorKind := some ErrorKind.manifest, manifestFetchPromise := none }

/-! ## ManagedIndexer: interleaved manifest traffic on one root

To reason about concurrent getManifest callers we run sequences of the two
atomic steps above over one root state.  The trace state additionally
records, as ghost data never read by the steps themselves: which fetch
tasks have started and completed, which branch each task fetches for,
which branch the currently cached manifest was fetched for, and what each
call returned. -/

/-- A started fetch task: its identity and the branch it fetches for. -/
structure FetchTask where
  fid : Nat
  branch : String
  deriving DecidableEq

/-- An atomic operation on the manifest machinery of one root: a
getManifest call for a branch, or the completion of a started fetch
task. -/
inductive MOp where
  | call (branch : String)
  | complete (fid : Nat) (outcome : FetchOutcome)
  deriving DecidableEq

/-- The root state together with the ghost bookkeeping of the trace. -/
structure MTraceState where
  st : RootState
  started : List FetchTask
  completed : List Nat
  manifestOrigin : Option String
  returns : List (String × ManifestCall)
  deriving DecidableEq

/-- One trace step.  A call runs getManifestStep with the next fresh task
identity; a completion runs completeFetch and is enabled only for a task
that has started and has not completed yet.  manifestOrigin is updated to
the completing task branch exactly when the completion stores a
manifest. -/
def mStep (ts : MTraceState) (op : MOp) : MTraceState :=
  match op with
  | MOp.call b =>
    let fresh := ts.started.length
    let r := getManifestStep ts.st b fresh
    let started' :=
      match r.2 with
      | ManifestCall.started fid => ts.started ++ [⟨fid, b⟩]
      | _ => ts.started
    { ts with st := r.1, started := started', returns := ts.returns ++ [(b, r.2)] }
  | MOp.complete fid outcome =>
    if ts.started.any (fun t => t.fid == fid) && !(ts.completed.contains fid) then
      let origin' :=
        match outcome with
        | FetchOutcome.ok _ _ =>
          match ts.started.find? (fun t => t.fid == fid) with
          | some t => some t.branch
          | none => ts.manifestOrigin
        | FetchOutcome.fail => ts.manifestOrigin
      { ts with
          st := completeFetch ts.st outcome
          completed := ts.completed ++ [fid]
          manifestOrigin := origin' }
    else ts

/-- Run a sequence of trace operations. -/
def mRun (ts : MTraceState) (ops : List MOp) : MTraceState :=
  ops.foldl mStep ts

/-- The fetch tasks in flight: started and not yet completed. -/
def inFlight (ts : MTraceState) : List FetchTask :=
  ts.started.filter fun t => !(ts.completed.contains t.fid)

/-! ## ManagedIndexer: event handling -/

/-- The basename of a slash-separated path: the characters after the last
slash. -/
def basenamePosix (p : String) : List Char :=
  ((p.data.reverse.takeWhile fun c => c ≠ '/')).reverse

/-- Node path.extname for slash-separated paths: the substring of the
basename from its last dot; empty when the basename has no dot, when its
only dot is its first character, or when the basename is exactly two
dots. -/
def extname (p : String) : String :=
  let base := basenamePosix p
  if base = ['.', '.'] then ""
  else
    let revExt := base.reverse.takeWhile fun c => c ≠ '.'
    if revExt.length = base.length then ""
    else if revExt.length = base.length - 1 then ""
    else String.mk ('.' :: revExt.reverse)

/-- JavaScript truthiness of a nullable string field: null and the empty
string are falsy. -/
def optStrFalsy : Option String → Bool
  | none => true
  | some s => s.isEmpty

/-- What the file-changed case of onEvent decides for one event. -/
inductive FileDecision where
  | skipUnsupportedExt
  | skipNoManifest
  | skipAlreadyIndexed
  | scheduleUpload (filePath fileHash branch : String) (isBaseBranch : Bool)
  deriving DecidableEq

/-- The file-changed case of ManagedIndexer.onEvent after the entry
guards: skip when the lowercased extension is not in the supported list
(the list itself lives in a shared constants module outside this slice of
the repository and is a parameter here); then await getManifest for the
event branch, skipping the file when that await throws (manifestResult is
its outcome, none for a throw); skip when the manifest already contains
the exact path and hash pair; otherwise hand exactly one upsert task for
the event to the shared concurrency limiter. -/
def handleFileChanged (scannerExts : List String) (filePath fileHash branch : String)
    (isBaseBranch : Bool) (manifestResult : Option ServerManifest) : FileDecision :=
  if !(scannerExts.contains (jsToLower (extname filePath))) then
    FileDecision.skipUnsupportedExt
  else
    match manifestResult with
    | none => FileDecision.skipNoManifest
    | some m =>
      if m.files.any (fun f => f.filePath == filePath && f.fileHash == fileHash) then
        FileDecision.skipAlreadyIndexed
      else
        FileDecision.scheduleUpload filePath fileHash branch isBaseBranch

/-- An event as the orchestrator receives it: the payload together with
the identity of the emitting watcher. -/
structure OrchEvent where
  watcher : Nat
  ev : WatcherEvent
  deriving DecidableEq

/-- The externally visible outcome of one onEvent invocation. -/
inductive OrchOutcome where
  | droppedInactive
  | droppedUnknownWatcher
  | droppedUninitialized
  | scanStartHandled
  | scanEndHandled
  | fileDeletedLogged
  | branchChangeHandled (requestedBranch : String)
  | fileChangedHandled (d : FileDecision)
  deriving DecidableEq

/-- Whether the outcome involved a getManifest call: the branch-changed
case always calls it, the file-changed case calls it unless the extension
check skipped first. -/
def requestsManifest : OrchOutcome → Bool
  | OrchOutcome.branchChangeHandled _ => true
  | OrchOutcome.fileChangedHandled FileDecision.skipUnsupportedExt => false
  | OrchOutcome.fileChangedHandled _ => true
  | _ => false

/-- Whether the outcome scheduled an upload task. -/
def schedulesUpload : OrchOutcome → Bool
  | OrchOutcome.fileChangedHandled (FileDecision.scheduleUpload _ _ _ _) => true
  | _ => false

/-- Replace the first root state owning the given watcher identity; the
source mutates the object found by its find call. -/
def updateFirst : List RootState → Nat → (RootState → RootState) → List RootState
  | [], _, _ => []
  | s :: rest, wid, f =>
    if s.watcher == some wid then f s :: rest else s :: updateFirst rest wid f

/-- ManagedIndexer.onEvent: drop the event when the indexer is inactive;
look the root state up by watcher identity and drop the event of an
unknown watcher (a root whose watcher construction failed stores no
watcher and therefore never matches); drop the event when the project id
or the recorded branch of the root is null or empty, mutating nothing;
otherwise dispatch on the event tag.  scan-start sets the indexing flag
and clears any stored error; scan-end clears the indexing flag;
file-deleted is only logged; branch-changed hands the new branch to
getManifest, whose state effects and possible swallowed failure are the
trace steps above; file-changed runs handleFileChanged with the outcome of
its getManifest await. -/
def onEvent (isActive : Bool) (states : List RootState) (oev : OrchEvent)
    (scannerExts : List String) (manifestResult : Option ServerManifest) :
    List RootState × OrchOutcome :=
  if !isActive then (states, OrchOutcome.droppedInactive)
  else
    match states.find? (fun s => s.watcher == some oev.watcher) with
    | none => (states, OrchOutcome.droppedUnknownWatcher)
    | some st =>
      if optStrFalsy st.projectId || optStrFalsy st.gitBranch then
        (states, OrchOutcome.droppedUninitialized)
      else
        match oev.ev with
        | WatcherEvent.branchChanged _ newBranch _ _ =>
          (states, OrchOutcome.branchChangeHandled newBranch)
        | WatcherEvent.scanStart _ _ =>
          (updateFirst states oev.watcher
            (fun s => { s with isIndexing := true, errorKind := none }),
            OrchOutcome.scanStartHandled)
        | WatcherEvent.scanEnd _ _ =>
          (updateFirst states oev.watcher (fun s => { s with isIndexing := false }),
            OrchOutcome.scanEndHandled)
        | WatcherEvent.fileDeleted _ _ _ =>
          (states, OrchOutcome.fileDeletedLogged)
        | WatcherEvent.fileChanged fp fh br isBase =>
          (states,
            OrchOutcome.fileChangedHandled
              (handleFileChanged scannerExts fp fh br isBase manifestResult))

/-! ## ManagedIndexer: per-root start-up -/

deriving instance DecidableEq for Except

/-- The outcomes of the suspending collaborators consulted while starting
one workspace root: whether it is a git repository, the repository url and
branch from the git info step, the project id from the config resolver
(ok none when the config names no project), the initial manifest fetch and
the watcher construction (yielding the watcher identity). -/
structure RootStartInput where
  isGitRepo : Bool
  gitInfo : Except String (String × String)
  kiloConfig : Except String (Option String)
  manifestFetch : Except String ServerManifest
  watcherCtor : Except String Nat
  deriving DecidableEq

/-- The per-root body of ManagedIndexer.start: skip silently when the
folder is not a git repository; on a git-info failure, or a throwing
config resolver, record a git-kind error keeping whatever fields were
already set; skip silently when the config names no project id; on a
manifest fetch failure record a manifest-kind error keeping branch and
project id and construct no watcher; on a watcher construction failure
record a scan-kind error keeping the manifest; otherwise the root is fully
initialized.  Each arm returns the furthest state the root reached. -/
def initRoot (inp : RootStartInput) : Option RootState :=
  if !inp.isGitRepo then none
  else
    match inp.gitInfo with
    | Except.error _ =>
      some { watcher := none, gitBranch := none, projectId := none, manifest := none,
             isIndexing := false, repositoryUrl := none,
             errorKind := some ErrorKind.git, manifestFetchPromise := none }
    | Except.ok (url, branch) =>
      match inp.kiloConfig with
      | Except.error _ =>
        some { watcher := none, gitBranch := some branch, projectId := none,
               manifest := none, isIndexing := false, repositoryUrl := some url,
               errorKind := some ErrorKind.git, manifestFetchPromise := none }
      | Except.ok none => none
      | Except.ok (some pid) =>
        match inp.manifestFetch with
        | Except.error _ =>
          some { watcher := none, gitBranch := some branch, projectId := some pid,
                 manifest := none, isIndexing := false, repositoryUrl := some url,
                 errorKind := some ErrorKind.manifest, manifestFetchPromise := none }
        | Except.ok m =>
          match inp.watcherCtor with
          | Except.error _ =>
            some { watcher := none, gitBranch := some branch, projectId := some pid,
                   manifest := some m, isIndexing := false, repositoryUrl := some url,
                   errorKind := some ErrorKind.scan, manifestFetchPromise := none }
          | Except.ok wid =>
            some { watcher := some wid, gitBranch := some branch, projectId := some pid,
                   manifest := some m, isIndexing := false, repositoryUrl := some url,
                   errorKind := none, manifestFetchPromise := none }

/-- The fully initialized state initRoot produces when every step of a
root succeeds. -/
def fullRootState (url branch pid : String) (m : ServerManifest) (wid : Nat) : RootState :=
  { watcher := some wid, gitBranch := some branch, projectId := some pid,
    manifest := some m, isIndexing := false, repositoryUrl := some url,
    errorKind := none, manifestFetchPromise := none }

/-- The degraded state initRoot produces when only the manifest fetch of a
root fails. -/
def manifestFailState (url branch pid : String) : RootState :=
  { watcher := none, gitBranch := some branch, projectId := some pid,
    manifest := none, isIndexing := false, repositoryUrl := some url,
    errorKind := some ErrorKind.manifest, manifestFetchPromise := none }

/-- The state list built by ManagedIndexer.start: every folder is started
independently (the source awaits all per-root bodies together and each
body catches its own failures), and the null placeholders of skipped
folders are filtered out. -/
def startStates (inputs : List RootStartInput) : List RootState :=
  inputs.filterMap initRoot

/-! ## Predicates and concrete fixtures used by the theorems -/

/-- A nonempty whitespace-free token. -/
def isWordStr (s : String) : Prop :=
  s.data ≠ [] ∧ ∀ c ∈ s.data, isJsWs c = false

/-- Restriction of a trace to getManifest calls for one branch. -/
def callsTarget (b : String) (ops : List MOp) : Prop :=
  ∀ op ∈ ops, ∀ br, op = MOp.call br → br = b

/-- The manifest state of a root is consistent for branch b: every started
fetch task fetches for b, any cached manifest was fetched for b, and the
in-flight promise field only ever refers to a started task. -/
def branchConsistent (b : String) (ts : MTraceState) : Prop :=
  (∀ t ∈ ts.started, t.branch = b) ∧
  (ts.st.manifest ≠ none → ts.manifestOrigin = some b) ∧
  (∀ fid, ts.st.manifestFetchPromise = some fid → ∃ t ∈ ts.started, t.fid = fid)

/-- A concrete manifest used by the interleaving scenarios: the manifest
the start-up fetch produced for the branch main. -/
def mainManifest : ServerManifest :=
  { files := [{ filePath := "old.ts", fileHash := "h0" }] }

/-- A root state as start-up leaves it: branch main recorded, the manifest
for main cached, no fetch in flight. -/
def startedRoot : RootState :=
  { watcher := some 0, gitBranch := some "main", projectId := some "p",
    manifest := some mainManifest, isIndexing := false, repositoryUrl := some "u",
    errorKind := none, manifestFetchPromise := none }

/-- The trace state over startedRoot: nothing started, nothing completed,
the cached manifest originating from the branch main. -/
def startedTrace : MTraceState :=
  { st := startedRoot, started := [], completed := [], manifestOrigin := some "main",
    returns := [] }

/-! ## Lemmas about the string primitives -/

lemma wordsAux_append_nonws (w : List Char) (hw : ∀ c ∈ w, isJsWs c = false) :
    ∀ rest acc, wordsAux (w ++ rest) acc = wordsAux rest (w.reverse ++ acc) := by
  induction w with
  | nil => intro rest acc; simp
  | cons c w ih =>
    intro rest acc
    have hc : isJsWs c = false := hw c (by simp)
    have hw' : ∀ d ∈ w, isJsWs d = false := fun d hd => hw d (by simp [hd])
    simp only [List.cons_append, wordsAux, hc, Bool.false_eq_true, if_false]
    rw [show w.append rest = w ++ rest from rfl, ih hw' rest (c :: acc)]
    simp

lemma wordsAux_space (rest acc : List Char) (h : acc ≠ []) :
    wordsAux (' ' :: rest) acc = acc.reverse :: wordsAux rest [] := by
  have hsp : isJsWs ' ' = true := rfl
  have hne : acc.isEmpty = false := by simpa [List.isEmpty_iff] using h
  simp [wordsAux, hsp, hne]

lemma intercalate_cons_cons (a b : List Char) (l : List (List Char)) :
    List.intercalate [' '] (a :: b :: l) = a ++ ' ' :: List.intercalate [' '] (b :: l) := by
  simp [List.intercalate, List.intersperse]

/-- Splitting on whitespace runs inverts joining words with single spaces,
for nonempty words free of whitespace. -/
lemma splitWs_intercalate (ts : List (List Char))
    (h : ∀ t ∈ ts, t ≠ [] ∧ ∀ c ∈ t, isJsWs c = false) :
    splitWs (List.intercalate [' '] ts) = ts := by
  induction ts with
  | nil => simp [splitWs, List.intercalate, wordsAux]
  | cons t rest ih =>
    obtain ⟨ht, htw⟩ := h t (by simp)
    have h' : ∀ u ∈ rest, u ≠ [] ∧ ∀ c ∈ u, isJsWs c = false :=
      fun u hu => h u (by simp [hu])
    cases rest with
    | nil =>
      have h1 : List.intercalate [' '] [t] = t := by
        simp [List.intercalate, List.intersperse]
      rw [h1]
      unfold splitWs
      rw [show (t : List Char) = t ++ [] by simp, wordsAux_append_nonws t htw [] []]
      simp [wordsAux, List.isEmpty_iff, ht]
    | cons t2 rest2 =>
      rw [intercalate_cons_cons]
      unfold splitWs
      rw [wordsAux_append_nonws t htw _ []]
      rw [wordsAux_space _ _ (by simp [ht])]
      rw [show wordsAux (List.intercalate [' '] (t2 :: rest2)) [] =
            splitWs (List.intercalate [' '] (t2 :: rest2)) from rfl]
      rw [ih h']
      simp

lemma getLast_nonws (l : List Char) (h : ∀ c ∈ l, isJsWs c = false) (c : Char)
    (hc : l.getLast? = some c) : isJsWs c = false := by
  obtain ⟨hl, rfl⟩ := List.mem_getLast?_eq_getLast (show c ∈ l.getLast? by simp [hc])
  exact h _ (List.getLast_mem hl)

/-- Trimming is the identity on a string whose first and last characters
are not whitespace. -/
lemma trimChars_eq_self (s : List Char)
    (h1 : ∀ c, s.head? = some c → isJsWs c = false)
    (h2 : ∀ c, s.getLast? = some c → isJsWs c = false) :
    trimChars s = s := by
  cases s with
  | nil => rfl
  | cons c t =>
    have hc : isJsWs c = false := h1 c rfl
    unfold trimChars
    rw [List.dropWhile_cons, hc]
    simp only [Bool.false_eq_true, if_false]
    cases hr : (c :: t).reverse with
    | nil => simp at hr
    | cons d u =>
      have hd : (c :: t).getLast? = some d := by
        rw [← List.head?_reverse, hr]; rfl
      have : isJsWs d = false := h2 d hd
      rw [List.dropWhile_cons, this]
      simp only [Bool.false_eq_true, if_false]
      rw [← hr, List.reverse_reverse]

lemma intercalate_ne_nil (t : List Char) (rest : List (List Char)) (ht : t ≠ []) :
    List.intercalate [' '] (t :: rest) ≠ [] := by
  cases rest with
  | nil => simpa [List.intercalate, List.intersperse] using ht
  | cons t2 r2 => rw [intercalate_cons_cons]; simp [ht]

lemma getLast?_intercalate (t : List Char) (rest : List (List Char))
    (h : ∀ u ∈ t :: rest, u ≠ []) :
    ∃ u ∈ t :: rest, (List.intercalate [' '] (t :: rest)).getLast? = u.getLast? := by
  induction rest generalizing t with
  | nil =>
    exact ⟨t, by simp, by simp [List.intercalate, List.intersperse]⟩
  | cons t2 r2 ih =>
    obtain ⟨u, hu, he⟩ := ih t2 (fun v hv => h v (List.mem_cons_of_mem t hv))
    refine ⟨u, List.mem_cons_of_mem t hu, ?_⟩
    rw [intercalate_cons_cons]
    have hne : List.intercalate [' '] (t2 :: r2) ≠ [] :=
      intercalate_ne_nil t2 r2 (h t2 (by simp))
    rw [show (' ' :: List.intercalate [' '] (t2 :: r2) : List Char) =
          [' '] ++ List.intercalate [' '] (t2 :: r2) from rfl]
    rw [← List.append_assoc, List.getLast?_append_of_ne_nil _ hne, he]


lemma head?_append_left (l r : List Char) (h : l ≠ []) : (l ++ r).head? = l.head? := by
  cases l with
  | nil => exact absurd rfl h
  | cons a t => rfl

lemma head?_intercalate (t : List Char) (rest : List (List Char)) (ht : t ≠ []) :
    (List.intercalate [' '] (t :: rest)).head? = t.head? := by
  cases rest with
  | nil => simp [List.intercalate, List.intersperse]
  | cons t2 r2 => rw [intercalate_cons_cons]; exact head?_append_left _ _ ht

lemma head_nonws (l : List Char) (h : ∀ c ∈ l, isJsWs c = false) (c : Char)
    (hc : l.head? = some c) : isJsWs c = false := by
  cases l with
  | nil => simp at hc
  | cons a t =>
    cases hc
    exact h _ (by simp)

lemma parse_mkLsRecord (mode hash stage : String) (pw : List String)
    (hm : isWordStr mode) (hh : isWordStr hash) (hs : isWordStr stage)
    (hne : pw ≠ []) (hw : ∀ w ∈ pw, isWordStr w) :
    parseLsFilesLine (mkLsRecord mode hash stage (spaceJoin pw)) =
      some { fileHash := hash, filePath := spaceJoin pw } := by
  obtain ⟨hm1, hm2⟩ := hm
  obtain ⟨hh1, hh2⟩ := hh
  obtain ⟨hs1, hs2⟩ := hs
  obtain ⟨q, qs, hq⟩ : ∃ q qs, pw.map String.data = q :: qs := by
    cases hpw : pw.map String.data with
    | nil => exact absurd (List.map_eq_nil_iff.mp hpw) hne
    | cons q qs => exact ⟨q, qs, rfl⟩
  have htokcond : ∀ t ∈ mode.data :: hash.data :: stage.data :: pw.map String.data,
      t ≠ [] ∧ ∀ c ∈ t, isJsWs c = false := by
    intro t ht
    simp only [List.mem_cons, List.mem_map] at ht
    rcases ht with rfl | rfl | rfl | ⟨w, hwmem, rfl⟩
    · exact ⟨hm1, hm2⟩
    · exact ⟨hh1, hh2⟩
    · exact ⟨hs1, hs2⟩
    · exact hw w hwmem
  have hdata : (mkLsRecord mode hash stage (spaceJoin pw)).data =
      List.intercalate [' '] (mode.data :: hash.data :: stage.data :: pw.map String.data) := by
    rw [hq, intercalate_cons_cons, intercalate_cons_cons, intercalate_cons_cons]
    simp [mkLsRecord, String.data_append, spaceJoin, joinSpaces, hq]
  have hhead : ∀ c,
      (List.intercalate [' ']
        (mode.data :: hash.data :: stage.data :: pw.map String.data)).head? = some c →
      isJsWs c = false := by
    intro c hc
    rw [head?_intercalate _ _ hm1] at hc
    exact head_nonws _ hm2 c hc
  have hlast : ∀ c,
      (List.intercalate [' ']
        (mode.data :: hash.data :: stage.data :: pw.map String.data)).getLast? = some c →
      isJsWs c = false := by
    intro c hc
    obtain ⟨u, hu, he⟩ := getLast?_intercalate mode.data
      (hash.data :: stage.data :: pw.map String.data)
      (fun v hv => (htokcond v hv).1)
    rw [he] at hc
    exact getLast_nonws u (htokcond u hu).2 c hc
  have htrim : trimChars
      (List.intercalate [' '] (mode.data :: hash.data :: stage.data :: pw.map String.data)) =
      List.intercalate [' '] (mode.data :: hash.data :: stage.data :: pw.map String.data) :=
    trimChars_eq_self _ hhead hlast
  have hsplit := splitWs_intercalate _ htokcond
  have hnonnil : List.intercalate [' ']
      (mode.data :: hash.data :: stage.data :: pw.map String.data) ≠ [] :=
    intercalate_ne_nil _ _ hm1
  unfold parseLsFilesLine
  rw [hdata, htrim]
  rw [show (List.intercalate [' ']
      (mode.data :: hash.data :: stage.data :: pw.map String.data)).isEmpty = false by
    simpa [List.isEmpty_iff] using hnonnil]
  simp only [Bool.false_eq_true, if_false]
  rw [hsplit]
  rw [if_neg (show ¬ (mode.data :: hash.data :: stage.data :: pw.map String.data).length < 4 by
    simp [hq])]
  rfl


lemma filterMap_parse_eq_map (f : ParsedLsLine → WatcherEvent) (lines : List String)
    (ps : List ParsedLsLine) (h : lines.map parseLsFilesLine = ps.map some) :
    lines.filterMap (fun l => (parseLsFilesLine l).map f) = ps.map f := by
  induction lines generalizing ps with
  | nil =>
    cases ps with
    | nil => simp
    | cons p ps => simp at h
  | cons l rest ih =>
    cases ps with
    | nil => simp at h
    | cons p ps =>
      simp only [List.map_cons, List.cons.injEq] at h
      obtain ⟨h1, h2⟩ := h
      simp [List.filterMap_cons, h1, ih ps h2]

lemma exists_parsed (lines : List String) (h : ∀ l ∈ lines, (parseLsFilesLine l).isSome) :
    ∃ ps : List ParsedLsLine, lines.map parseLsFilesLine = ps.map some := by
  induction lines with
  | nil => exact ⟨[], rfl⟩
  | cons l rest ih =>
    obtain ⟨ps, hps⟩ := ih (fun x hx => h x (by simp [hx]))
    obtain ⟨p, hp⟩ := Option.isSome_iff_exists.mp (h l (by simp))
    exact ⟨p :: ps, by simp [hp, hps]⟩

/-- C2.  Full-scan completeness and ordering: on the base branch
(case-insensitively equal to the resolved default branch), scan issues the
single enumeration command and emits exactly ScanStart with isBaseBranch
true, then one FileChanged per tracked-file record carrying the pair the
record parser extracts, then ScanEnd, and nothing else. -/
theorem C2_full_scan (branch baseBranch : String) (lines : List String)
    (diff : GitDiff) (lookupLines : List String)
    (hbase : jsToLower branch = jsToLower baseBranch)
    (h : ∀ l ∈ lines, (parseLsFilesLine l).isSome) :
    ∃ ps : List ParsedLsLine,
      lines.map parseLsFilesLine = ps.map some ∧
      ps.length = lines.length ∧
      scan false branch baseBranch lines diff lookupLines =
        (["git ls-files -s"],
          WatcherEvent.scanStart branch true
            :: ps.map (parsedToEvent branch true)
            ++ [WatcherEvent.scanEnd branch true]) := by
  obtain ⟨ps, hps⟩ := exists_parsed lines h
  refine ⟨ps, hps, ?_, ?_⟩
  · simpa using (congrArg List.length hps).symm
  · unfold scan scanAllFiles
    rw [if_neg (by simp), if_pos hbase]
    rw [filterMap_parse_eq_map _ lines ps hps]

theorem C2_full_scan_witness :
    ∃ ps : List ParsedLsLine,
      ["100644 h1 0 a.ts", "100644 h2 0 b file.ts"].map parseLsFilesLine = ps.map some ∧
      ps.length = 2 ∧
      scan false "Main" "main" ["100644 h1 0 a.ts", "100644 h2 0 b file.ts"]
          ⟨[], [], []⟩ [] =
        (["git ls-files -s"],
          WatcherEvent.scanStart "Main" true
            :: ps.map (parsedToEvent "Main" true)
            ++ [WatcherEvent.scanEnd "Main" true]) :=
  C2_full_scan "Main" "main" ["100644 h1 0 a.ts", "100644 h2 0 b file.ts"]
    ⟨[], [], []⟩ [] (by decide) (by decide)

/-- C4.  Differential scan: on a non-base branch, scan emits ScanStart
with isBaseBranch false and one FileDeleted per deleted path; when the
union of added and modified paths is empty it issues no command and still
emits ScanEnd; otherwise it issues exactly the one batched hash-lookup
command covering that union with each path quoted, emits one FileChanged
per parsed result line, and emits ScanEnd. -/
theorem C4_differential_scan (branch baseBranch : String) (fullLines : List String)
    (diff : GitDiff) (lookupLines : List String)
    (hbase : jsToLower branch ≠ jsToLower baseBranch)
    (h : ∀ l ∈ lookupLines, (parseLsFilesLine l).isSome) :
    (diff.added ++ diff.modified = [] →
      scan false branch baseBranch fullLines diff lookupLines =
        ([], WatcherEvent.scanStart branch false
              :: diff.deleted.map (fun f => WatcherEvent.fileDeleted f branch false)
              ++ [WatcherEvent.scanEnd branch false])) ∧
    (diff.added ++ diff.modified ≠ [] →
      ∃ ps : List ParsedLsLine,
        lookupLines.map parseLsFilesLine = ps.map some ∧
        scan false branch baseBranch fullLines diff lookupLines =
          ([batchedLsFilesCmd (diff.added ++ diff.modified)],
            WatcherEvent.scanStart branch false
              :: diff.deleted.map (fun f => WatcherEvent.fileDeleted f branch false)
              ++ ps.map (parsedToEvent branch false)
              ++ [WatcherEvent.scanEnd branch false])) := by
  constructor
  · intro hempty
    unfold scan scanDiffFiles
    rw [if_neg (by simp), if_neg hbase, if_pos (by simp [hempty])]
  · intro hnon
    obtain ⟨ps, hps⟩ := exists_parsed lookupLines h
    refine ⟨ps, hps, ?_⟩
    unfold scan scanDiffFiles
    rw [if_neg (by simp), if_neg hbase, if_neg (by simp [List.isEmpty_iff, hnon])]
    rw [filterMap_parse_eq_map _ lookupLines ps hps]

theorem C4_differential_scan_witness :
    ∃ ps : List ParsedLsLine,
      ["100644 abc123 0 new-file.ts", "100644 def456 0 existing-file.ts"].map
          parseLsFilesLine = ps.map some ∧
      scan false "feature/test" "main" []
          ⟨["new-file.ts"], ["existing-file.ts"], []⟩
          ["100644 abc123 0 new-file.ts", "100644 def456 0 existing-file.ts"] =
        ([batchedLsFilesCmd (["new-file.ts"] ++ ["existing-file.ts"])],
          WatcherEvent.scanStart "feature/test" false
            :: ([] : List String).map (fun f => WatcherEvent.fileDeleted f "feature/test" false)
            ++ ps.map (parsedToEvent "feature/test" false)
            ++ [WatcherEvent.scanEnd "feature/test" false]) :=
  (C4_differential_scan "feature/test" "main" []
      ⟨["new-file.ts"], ["existing-file.ts"], []⟩
      ["100644 abc123 0 new-file.ts", "100644 def456 0 existing-file.ts"]
      (by decide) (by decide)).2 (by decide)


/-- C8, counterexample.  The record of the tracked file whose path is
"a  b.ts" (two consecutive spaces) does not round-trip: the full-scan
pipeline emits the path "a b.ts" (single space) and never the original
path, because splitting on whitespace runs and re-joining with single
spaces collapses consecutive whitespace. -/
theorem C8_counterexample :
    ("a  b.ts".data.any isJsWs = true) ∧
    WatcherEvent.fileChanged "a b.ts" "abc123" "main" true ∈
      (scanAllFiles "main" [mkLsRecord "100644" "abc123" "0" "a  b.ts"]).2 ∧
    WatcherEvent.fileChanged "a  b.ts" "abc123" "main" true ∉
      (scanAllFiles "main" [mkLsRecord "100644" "abc123" "0" "a  b.ts"]).2 := by
  decide

/-- C8, amended.  Whitespace path round-trip for single-space paths: when
the mode, hash and stage fields are nonempty whitespace-free tokens and
the path consists of nonempty whitespace-free words joined by single
spaces, the shared record parser returns the hash and the path verbatim,
and both the full-scan pipeline and the differential-scan batched-lookup
pipeline emit a FileChanged carrying that verbatim path. -/
theorem C8_whitespace_roundtrip_amended (mode hash stage : String) (pw : List String)
    (hm : isWordStr mode) (hh : isWordStr hash) (hs : isWordStr stage)
    (hne : pw ≠ []) (hw : ∀ w ∈ pw, isWordStr w) :
    parseLsFilesLine (mkLsRecord mode hash stage (spaceJoin pw)) =
      some { fileHash := hash, filePath := spaceJoin pw } ∧
    (∀ br, WatcherEvent.fileChanged (spaceJoin pw) hash br true ∈
      (scanAllFiles br [mkLsRecord mode hash stage (spaceJoin pw)]).2) ∧
    (∀ br, WatcherEvent.fileChanged (spaceJoin pw) hash br false ∈
      (scanDiffFiles br ⟨[spaceJoin pw], [], []⟩
        [mkLsRecord mode hash stage (spaceJoin pw)]).2) := by
  have hp := parse_mkLsRecord mode hash stage pw hm hh hs hne hw
  refine ⟨hp, ?_, ?_⟩
  · intro br
    simp [scanAllFiles, hp, parsedToEvent]
  · intro br
    simp [scanDiffFiles, hp, parsedToEvent]

theorem C8_whitespace_roundtrip_amended_witness :
    parseLsFilesLine (mkLsRecord "100644" "abc123" "0" (spaceJoin ["path", "with", "spaces.ts"])) =
      some { fileHash := "abc123", filePath := spaceJoin ["path", "with", "spaces.ts"] } :=
  (C8_whitespace_roundtrip_amended "100644" "abc123" "0" ["path", "with", "spaces.ts"]
    (by constructor <;> decide) (by constructor <;> decide) (by constructor <;> decide)
    (by decide) (by intro w hw; fin_cases hw <;> constructor <;> decide)).1

/-- C6, counterexample.  A change-handling cycle that observes a branch
change but whose triggered rescan throws completes (the error is caught
and logged by the cycle) with the cached snapshot still holding the
previous state, not the observed one: the snapshot assignment sits after
the rescan await and is skipped by the exception. -/
theorem C6_counterexample :
    (handleGitChange false (some ⟨"main", "abc123", false⟩) false
        "feature-x" "def456" "main" true).1 = some ⟨"main", "abc123", false⟩ ∧
    WatcherAction.scanCall ∈
      (handleGitChange false (some ⟨"main", "abc123", false⟩) false
        "feature-x" "def456" "main" true).2 ∧
    ("main" : String) ≠ "feature-x" := by
  decide

/-- C6, amended.  Snapshot freshness for nonthrowing cycles: a
change-handling cycle that is not dropped by the reentrancy guard,
observes a non-detached state, and whose rescan does not throw always
leaves the cached snapshot equal to the branch and commit observed during
the cycle, whether or not they differ from the previous snapshot. -/
theorem C6_snapshot_freshness_amended (cached : Option GitStateSnapshot)
    (b c db : String) :
    ∃ snap, (handleGitChange false cached false b c db false).1 = some snap ∧
      snap.branch = b ∧ snap.commit = c := by
  cases cached with
  | none => exact ⟨⟨b, c, false⟩, by simp [handleGitChange], rfl, rfl⟩
  | some cur =>
    by_cases hb : cur.branch = b
    · by_cases hc : cur.commit = c
      · exact ⟨cur, by simp [handleGitChange, hb, hc], hb, hc⟩
      · refine ⟨⟨b, c, false⟩, ?_, rfl, rfl⟩
        simp [handleGitChange, hb, hc]
    · refine ⟨⟨b, c, false⟩, ?_, rfl, rfl⟩
      simp [handleGitChange, hb]

/-- C7.  Branch-change detection and ordering: a cycle that observes a
branch change emits exactly one BranchChanged event, carrying the previous
and new branch names, immediately before the single rescan invocation; a
commit-only change on the same branch performs the rescan with no
BranchChanged event. -/
theorem C7_branch_change_ordering (cur : GitStateSnapshot) (b c db : String)
    (scanThrows : Bool) :
    (cur.branch ≠ b →
      (handleGitChange false (some cur) false b c db scanThrows).2 =
        [WatcherAction.emit
            (WatcherEvent.branchChanged cur.branch b b (jsToLower b == jsToLower db)),
          WatcherAction.scanCall]) ∧
    (cur.branch = b → cur.commit ≠ c →
      (handleGitChange false (some cur) false b c db scanThrows).2 =
        [WatcherAction.scanCall]) := by
  constructor
  · intro hb
    cases scanThrows <;> simp [handleGitChange, hb]
  · intro hb hc
    cases scanThrows <;> simp [handleGitChange, hb, hc]

theorem C7_branch_change_ordering_witness :
    (handleGitChange false (some ⟨"main", "abc123", false⟩) false
        "feature/test" "abc123" "main" false).2 =
      [WatcherAction.emit
          (WatcherEvent.branchChanged "main" "feature/test" "feature/test"
            (jsToLower "feature/test" == jsToLower "main")),
        WatcherAction.scanCall] :=
  (C7_branch_change_ordering ⟨"main", "abc123", false⟩ "feature/test" "abc123" "main"
    false).1 (by decide)


lemma mem_files_iff_any (m : ServerManifest) (fp fh : String) :
    (⟨fp, fh⟩ : ManifestFile) ∈ m.files ↔
      m.files.any (fun f => f.filePath == fp && f.fileHash == fh) = true := by
  rw [List.any_eq_true]
  constructor
  · intro h
    exact ⟨⟨fp, fh⟩, h, by simp⟩
  · rintro ⟨f, hf, heq⟩
    simp only [Bool.and_eq_true, beq_iff_eq] at heq
    obtain ⟨h1, h2⟩ := heq
    cases f
    cases h1
    cases h2
    exact hf

/-- C3.  Content-addressed upload idempotence: for a FileChanged event
with a supported extension whose getManifest await returned a manifest, no
upload is scheduled when the manifest already contains the exact path and
hash pair, and exactly one upload task for the event is handed to the
limiter otherwise. -/
theorem C3_upload_idempotence (exts : List String) (fp fh br : String) (ib : Bool)
    (m : ServerManifest) (hext : exts.contains (jsToLower (extname fp)) = true) :
    ((⟨fp, fh⟩ : ManifestFile) ∈ m.files →
      handleFileChanged exts fp fh br ib (some m) = FileDecision.skipAlreadyIndexed) ∧
    ((⟨fp, fh⟩ : ManifestFile) ∉ m.files →
      handleFileChanged exts fp fh br ib (some m) =
        FileDecision.scheduleUpload fp fh br ib) := by
  have hext' : jsToLower (extname fp) ∈ exts := by simpa using hext
  constructor
  · intro hmem
    have := (mem_files_iff_any m fp fh).mp hmem
    simp [handleFileChanged, hext', this]
  · intro hmem
    have : m.files.any (fun f => f.filePath == fp && f.fileHash == fh) = false := by
      by_contra hconc
      exact hmem ((mem_files_iff_any m fp fh).mpr (by simpa using hconc))
    simp [handleFileChanged, hext', this]

theorem C3_upload_idempotence_witness :
    handleFileChanged [".ts"] "test.ts" "abc123" "main" true
        (some ⟨[⟨"test.ts", "abc123"⟩]⟩) = FileDecision.skipAlreadyIndexed ∧
    handleFileChanged [".ts"] "test.ts" "zzz999" "main" true
        (some ⟨[⟨"test.ts", "abc123"⟩]⟩) =
      FileDecision.scheduleUpload "test.ts" "zzz999" "main" true :=
  ⟨(C3_upload_idempotence [".ts"] "test.ts" "abc123" "main" true
      ⟨[⟨"test.ts", "abc123"⟩]⟩ (by decide)).1 (by decide),
    (C3_upload_idempotence [".ts"] "test.ts" "zzz999" "main" true
      ⟨[⟨"test.ts", "abc123"⟩]⟩ (by decide)).2 (by decide)⟩

/-- C10.  Guard on incompletely initialized roots: an event whose watcher
resolves to a root state whose project id or recorded branch is null is
dropped by the handler before the dispatch switch, leaving the state list
untouched and making no getManifest and no upload call. -/
theorem C10_uninitialized_guard (states : List RootState) (oev : OrchEvent)
    (exts : List String) (mres : Option ServerManifest) (st : RootState)
    (hfind : states.find? (fun s => s.watcher == some oev.watcher) = some st)
    (hnull : st.projectId = none ∨ st.gitBranch = none) :
    onEvent true states oev exts mres = (states, OrchOutcome.droppedUninitialized) ∧
    requestsManifest (onEvent true states oev exts mres).2 = false ∧
    schedulesUpload (onEvent true states oev exts mres).2 = false := by
  have hguard : (optStrFalsy st.projectId || optStrFalsy st.gitBranch) = true := by
    rcases hnull with h | h <;> simp [h, optStrFalsy]
  have hmain : onEvent true states oev exts mres =
      (states, OrchOutcome.droppedUninitialized) := by
    unfold onEvent
    rw [if_neg (by simp), hfind]
    simp [hguard]
  exact ⟨hmain, by rw [hmain]; rfl, by rw [hmain]; rfl⟩

theorem C10_uninitialized_guard_witness :
    onEvent true
        [{ watcher := some 7, gitBranch := none, projectId := some "p",
           manifest := none, isIndexing := false, repositoryUrl := none,
           errorKind := some ErrorKind.git, manifestFetchPromise := none }]
        ⟨7, WatcherEvent.scanStart "main" true⟩ [".ts"] none =
      ([{ watcher := some 7, gitBranch := none, projectId := some "p",
          manifest := none, isIndexing := false, repositoryUrl := none,
          errorKind := some ErrorKind.git, manifestFetchPromise := none }],
        OrchOutcome.droppedUninitialized) :=
  (C10_uninitialized_guard _ _ _ _
    { watcher := some 7, gitBranch := none, projectId := some "p",
      manifest := none, isIndexing := false, repositoryUrl := none,
      errorKind := some ErrorKind.git, manifestFetchPromise := none }
    (by decide) (Or.inr rfl)).1


/-- C9.  Per-root start-up isolation: each workspace root is started
independently, so whatever the other entries of the input list do, a root
whose steps all succeed contributes its fully initialized state, and a
root failing at the git-info, manifest-fetch or watcher-construction step
contributes a state carrying the error kind of that step and every field
the preceding steps had already produced. -/
theorem C9_per_root_isolation (inputs : List RootStartInput) (inp : RootStartInput)
    (hmem : inp ∈ inputs) :
    (∀ url branch pid m wid,
      inp.isGitRepo = true → inp.gitInfo = Except.ok (url, branch) →
      inp.kiloConfig = Except.ok (some pid) → inp.manifestFetch = Except.ok m →
      inp.watcherCtor = Except.ok wid →
      fullRootState url branch pid m wid ∈ startStates inputs) ∧
    (∀ e, inp.isGitRepo = true → inp.gitInfo = Except.error e →
      ({ watcher := none, gitBranch := none, projectId := none, manifest := none,
         isIndexing := false, repositoryUrl := none,
         errorKind := some ErrorKind.git, manifestFetchPromise := none } : RootState)
        ∈ startStates inputs) ∧
    (∀ url branch pid e,
      inp.isGitRepo = true → inp.gitInfo = Except.ok (url, branch) →
      inp.kiloConfig = Except.ok (some pid) → inp.manifestFetch = Except.error e →
      manifestFailState url branch pid ∈ startStates inputs) ∧
    (∀ url branch pid m e,
      inp.isGitRepo = true → inp.gitInfo = Except.ok (url, branch) →
      inp.kiloConfig = Except.ok (some pid) → inp.manifestFetch = Except.ok m →
      inp.watcherCtor = Except.error e →
      ({ watcher := none, gitBranch := some branch, projectId := some pid,
         manifest := some m, isIndexing := false, repositoryUrl := some url,
         errorKind := some ErrorKind.scan, manifestFetchPromise := none } : RootState)
        ∈ startStates inputs) := by
  refine ⟨?_, ?_, ?_, ?_⟩
  · intro url branch pid m wid h1 h2 h3 h4 h5
    exact List.mem_filterMap.mpr
      ⟨inp, hmem, by simp [initRoot, h1, h2, h3, h4, h5, fullRootState]⟩
  · intro e h1 h2
    exact List.mem_filterMap.mpr ⟨inp, hmem, by simp [initRoot, h1, h2]⟩
  · intro url branch pid e h1 h2 h3 h4
    exact List.mem_filterMap.mpr
      ⟨inp, hmem, by simp [initRoot, h1, h2, h3, h4, manifestFailState]⟩
  · intro url branch pid m e h1 h2 h3 h4 h5
    exact List.mem_filterMap.mpr ⟨inp, hmem, by simp [initRoot, h1, h2, h3, h4, h5]⟩

/-- The spec scenario: manifest fetch fails for root A while independent
root B completes start-up with a watcher and a manifest. -/
theorem C9_per_root_isolation_witness :
    manifestFailState "urlA" "main" "pA" ∈
      startStates
        [⟨true, Except.ok ("urlA", "main"), Except.ok (some "pA"),
            Except.error "boom", Except.ok 0⟩,
          ⟨true, Except.ok ("urlB", "main"), Except.ok (some "pB"),
            Except.ok ⟨[]⟩, Except.ok 1⟩] ∧
    fullRootState "urlB" "main" "pB" ⟨[]⟩ 1 ∈
      startStates
        [⟨true, Except.ok ("urlA", "main"), Except.ok (some "pA"),
            Except.error "boom", Except.ok 0⟩,
          ⟨true, Except.ok ("urlB", "main"), Except.ok (some "pB"),
            Except.ok ⟨[]⟩, Except.ok 1⟩] :=
  ⟨(C9_per_root_isolation _
      ⟨true, Except.ok ("urlA", "main"), Except.ok (some "pA"),
        Except.error "boom", Except.ok 0⟩ (by decide)).2.2.1
      "urlA" "main" "pA" "boom" rfl rfl rfl rfl,
    (C9_per_root_isolation _
      ⟨true, Except.ok ("urlB", "main"), Except.ok (some "pB"),
        Except.ok ⟨[]⟩, Except.ok 1⟩ (by decide)).1
      "urlB" "main" "pB" ⟨[]⟩ 1 rfl rfl rfl rfl rfl⟩


/-- Case analysis of the atomic getManifest body. -/
lemma getManifestStep_spec (st : RootState) (b : String) (f : Nat) :
    (∃ fid, st.manifestFetchPromise = some fid ∧ st.gitBranch = some b ∧
      getManifestStep st b f = (st, ManifestCall.reuse fid)) ∨
    (∃ m, st.manifest = some m ∧ st.gitBranch = some b ∧
      getManifestStep st b f = (st, ManifestCall.cached m)) ∨
    (getManifestStep st b f =
      ({ st with gitBranch := some b, manifestFetchPromise := some f },
        ManifestCall.started f)) := by
  unfold getManifestStep
  split_ifs with h1 h2
  · obtain ⟨hp, hg⟩ := h1
    obtain ⟨fid, hfid⟩ := Option.ne_none_iff_exists'.mp hp
    exact Or.inl ⟨fid, hfid, hg, by simp [hfid]⟩
  · obtain ⟨hm, hg⟩ := h2
    obtain ⟨m, hmm⟩ := Option.ne_none_iff_exists'.mp hm
    exact Or.inr (Or.inl ⟨m, hmm, hg, by simp [hmm]⟩)
  · exact Or.inr (Or.inr rfl)

lemma branchConsistent_step (b : String) (ts : MTraceState) (op : MOp)
    (hinv : branchConsistent b ts) (hop : ∀ br, op = MOp.call br → br = b) :
    branchConsistent b (mStep ts op) := by
  obtain ⟨h1, h2, h3⟩ := hinv
  cases op with
  | call br =>
    rw [hop br rfl]
    rcases getManifestStep_spec ts.st b ts.started.length with
      ⟨fid, hp, hg, heq⟩ | ⟨m, hm, hg, heq⟩ | heq
    · refine ⟨?_, ?_, ?_⟩ <;> simp only [mStep, heq] <;> [exact h1; exact h2; exact h3]
    · refine ⟨?_, ?_, ?_⟩ <;> simp only [mStep, heq] <;> [exact h1; exact h2; exact h3]
    · refine ⟨?_, ?_, ?_⟩ <;> simp only [mStep, heq]
      · intro t ht
        rcases List.mem_append.mp ht with ht | ht
        · exact h1 t ht
        · simp at ht
          subst ht
          rfl
      · exact h2
      · intro fid hfid
        simp only [Option.some.injEq] at hfid
        exact ⟨⟨ts.started.length, b⟩, by simp, hfid⟩
  | complete fid outcome =>
    by_cases hen : (ts.started.any (fun t => t.fid == fid) &&
        !(ts.completed.contains fid)) = true
    · cases outcome with
      | ok pid m =>
        have hfind : ∃ t, ts.started.find? (fun t => t.fid == fid) = some t := by
          have hany := (Bool.and_eq_true _ _).mp hen |>.1
          obtain ⟨t, ht, hfid⟩ := List.any_eq_true.mp hany
          cases hf : ts.started.find? (fun t => t.fid == fid) with
          | none =>
            exact absurd hfid (by simpa using List.find?_eq_none.mp hf t ht)
          | some u => exact ⟨u, rfl⟩
        obtain ⟨t, ht⟩ := hfind
        have htmem : t ∈ ts.started := List.mem_of_find?_eq_some ht
        refine ⟨?_, ?_, ?_⟩ <;> simp only [mStep, hen, if_true, ht, completeFetch]
        · exact h1
        · intro _
          rw [h1 t htmem]
        · intro fid' hfid'
          simp at hfid'
      | fail =>
        refine ⟨?_, ?_, ?_⟩ <;> simp only [mStep, hen, if_true, completeFetch]
        · exact h1
        · exact h2
        · intro fid' hfid'
          simp at hfid'
    · refine ⟨?_, ?_, ?_⟩ <;> simp only [mStep, hen, if_false] <;>
        [exact h1; exact h2; exact h3]

lemma branchConsistent_run (b : String) (ts : MTraceState) (ops : List MOp)
    (hinv : branchConsistent b ts) (hops : callsTarget b ops) :
    branchConsistent b (mRun ts ops) := by
  induction ops generalizing ts with
  | nil => exact hinv
  | cons op rest ih =>
    exact ih (mStep ts op)
      (branchConsistent_step b ts op hinv (fun br hbr => hops op (by simp) br hbr))
      (fun o ho br hbr => hops o (by simp [ho]) br hbr)


/-- C1, counterexample.  Three interleaved getManifest calls, for the
branches feature-y, feature-z and feature-y again, all arriving before any
fetch resolves, leave three fetch tasks in flight, two of them (task 0 and
task 2) for the same branch of the same root: the in-flight key is the
single mutable gitBranch field, which the interposed feature-z call
overwrites, so the third call no longer recognizes the pending feature-y
fetch and starts a duplicate. -/
theorem C1_counterexample :
    (⟨0, "feature-y"⟩ : FetchTask) ∈
      inFlight (mRun startedTrace
        [MOp.call "feature-y", MOp.call "feature-z", MOp.call "feature-y"]) ∧
    (⟨2, "feature-y"⟩ : FetchTask) ∈
      inFlight (mRun startedTrace
        [MOp.call "feature-y", MOp.call "feature-z", MOp.call "feature-y"]) ∧
    (0 : Nat) ≠ 2 := by
  decide

/-- C1, amended.  Single-flight holds between calls for the same branch
with no interposed call for a different branch: starting from any state
whose recorded branch differs from the target branch (the new-branch
scenario), two consecutive getManifest calls for that branch start exactly
one fetch task, the first caller receiving it as its pending result and
the second caller receiving the very same pending task, so one
manifest-fetch API call serves both and both observe its manifest; and
every fetch completion, successful or failed, clears the in-flight
promise field. -/
theorem C1_single_flight_amended (ts : MTraceState) (b : String)
    (h : ts.st.gitBranch ≠ some b) :
    (mRun ts [MOp.call b, MOp.call b]).started =
      ts.started ++ [⟨ts.started.length, b⟩] ∧
    (mRun ts [MOp.call b, MOp.call b]).returns =
      ts.returns ++ [(b, ManifestCall.started ts.started.length),
        (b, ManifestCall.reuse ts.started.length)] ∧
    (∀ st outcome, (completeFetch st outcome).manifestFetchPromise = none) := by
  have h1 : getManifestStep ts.st b ts.started.length =
      ({ ts.st with gitBranch := some b, manifestFetchPromise := some ts.started.length },
        ManifestCall.started ts.started.length) := by
    rcases getManifestStep_spec ts.st b ts.started.length with
      ⟨_, _, hg, _⟩ | ⟨_, _, hg, _⟩ | heq
    · exact absurd hg h
    · exact absurd hg h
    · exact heq
  have e1 : mStep ts (MOp.call b) =
      { ts with
          st := { ts.st with gitBranch := some b,
                             manifestFetchPromise := some ts.started.length },
          started := ts.started ++ [⟨ts.started.length, b⟩],
          returns := ts.returns ++ [(b, ManifestCall.started ts.started.length)] } := by
    simp [mStep, h1]
  have h2 : ∀ f, getManifestStep
      { ts.st with gitBranch := some b, manifestFetchPromise := some ts.started.length }
      b f =
      ({ ts.st with gitBranch := some b, manifestFetchPromise := some ts.started.length },
        ManifestCall.reuse ts.started.length) := by
    intro f
    unfold getManifestStep
    rw [if_pos ⟨by simp, rfl⟩]
    simp
  refine ⟨?_, ?_, ?_⟩
  · show (mStep (mStep ts (MOp.call b)) (MOp.call b)).started = _
    rw [e1]
    simp [mStep, h2]
  · show (mStep (mStep ts (MOp.call b)) (MOp.call b)).returns = _
    rw [e1]
    simp [mStep, h2]
  · intro st outcome
    cases outcome <;> simp [completeFetch]

theorem C1_single_flight_amended_witness :
    (mRun startedTrace [MOp.call "feature-y", MOp.call "feature-y"]).started =
      [⟨0, "feature-y"⟩] ∧
    (mRun startedTrace [MOp.call "feature-y", MOp.call "feature-y"]).returns =
      [("feature-y", ManifestCall.started 0), ("feature-y", ManifestCall.reuse 0)] := by
  have h := C1_single_flight_amended startedTrace "feature-y" (by decide)
  exact ⟨h.1, h.2.1⟩

/-- C5, counterexample.  A getManifest call for the new branch feature-y
starts a fetch; the fetch fails (the failure is recorded and the promise
cleared, but the stale manifest cached for main stays in place while the
recorded branch is now feature-y); the next call for feature-y then
satisfies the cached-manifest guard and returns the manifest that was
fetched for main — so a FileChanged event on feature-y is reconciled
against a manifest fetched for a different branch. -/
theorem C5_counterexample :
    (mRun startedTrace
        [MOp.call "feature-y", MOp.complete 0 FetchOutcome.fail,
          MOp.call "feature-y"]).returns =
      [("feature-y", ManifestCall.started 0),
        ("feature-y", ManifestCall.cached mainManifest)] ∧
    (mRun startedTrace
        [MOp.call "feature-y", MOp.complete 0 FetchOutcome.fail,
          MOp.call "feature-y"]).manifestOrigin = some "main" ∧
    ("main" : String) ≠ "feature-y" := by
  decide

/-- C5, amended.  First, a FileChanged event whose getManifest await
throws is skipped entirely: the handler returns one of the two skip
decisions and schedules no upload.  Second, staleness safety holds on a
root whose manifest state is consistent for the event branch: as long as
every started fetch targets that branch, every cached manifest originated
from it and every further getManifest call targets it, consistency is
preserved, a call answered from the cache returns a manifest fetched for
that very branch, and a call answered by a pending fetch attaches to a
task fetching for that very branch. -/
theorem C5_no_stale_manifest_amended :
    (∀ (exts : List String) (fp fh br : String) (ib : Bool),
      (handleFileChanged exts fp fh br ib none = FileDecision.skipUnsupportedExt ∨
        handleFileChanged exts fp fh br ib none = FileDecision.skipNoManifest) ∧
      schedulesUpload (OrchOutcome.fileChangedHandled
        (handleFileChanged exts fp fh br ib none)) = false) ∧
    (∀ (b : String) (ts : MTraceState) (ops : List MOp),
      branchConsistent b ts → callsTarget b ops →
      branchConsistent b (mRun ts ops) ∧
      (∀ m f, (getManifestStep (mRun ts ops).st b f).2 = ManifestCall.cached m →
        (mRun ts ops).manifestOrigin = some b) ∧
      (∀ fid f, (getManifestStep (mRun ts ops).st b f).2 = ManifestCall.reuse fid →
        ∃ t ∈ (mRun ts ops).started, t.fid = fid ∧ t.branch = b)) := by
  constructor
  · intro exts fp fh br ib
    cases hx : exts.contains (jsToLower (extname fp)) with
    | false =>
      have hd : handleFileChanged exts fp fh br ib none =
          FileDecision.skipUnsupportedExt := by
        have hx' : jsToLower (extname fp) ∉ exts := by simpa using hx
        simp [handleFileChanged, hx']
      exact ⟨Or.inl hd, by rw [hd]; rfl⟩
    | true =>
      have hd : handleFileChanged exts fp fh br ib none =
          FileDecision.skipNoManifest := by
        have hx' : jsToLower (extname fp) ∈ exts := by simpa using hx
        simp [handleFileChanged, hx']
      exact ⟨Or.inr hd, by rw [hd]; rfl⟩
  · intro b ts ops hinv hops
    have hrun := branchConsistent_run b ts ops hinv hops
    obtain ⟨h1, h2, h3⟩ := hrun
    refine ⟨⟨h1, h2, h3⟩, ?_, ?_⟩
    · intro m f hc
      rcases getManifestStep_spec (mRun ts ops).st b f with
        ⟨fid, _, _, heq⟩ | ⟨m', hm, _, heq⟩ | heq
      · rw [heq] at hc
        simp at hc
      · exact h2 (by simp [hm])
      · rw [heq] at hc
        simp at hc
    · intro fid f hc
      rcases getManifestStep_spec (mRun ts ops).st b f with
        ⟨fid', hp, _, heq⟩ | ⟨m', _, _, heq⟩ | heq
      · rw [heq] at hc
        simp only [ManifestCall.reuse.injEq] at hc
        subst hc
        obtain ⟨t, ht, htf⟩ := h3 fid' hp
        exact ⟨t, ht, htf, h1 t ht⟩
      · rw [heq] at hc
        simp at hc
      · rw [heq] at hc
        simp at hc

theorem C5_no_stale_manifest_amended_witness :
    handleFileChanged [".ts"] "test.ts" "abc123" "main" true none =
      FileDecision.skipNoManifest ∧
    branchConsistent "main" (mRun startedTrace [MOp.call "main"]) := by
  constructor
  · exact (C5_no_stale_manifest_amended.1 [".ts"] "test.ts" "abc123" "main" true).1.resolve_left
      (by decide)
  · refine (C5_no_stale_manifest_amended.2 "main" startedTrace [MOp.call "main"] ?_ ?_).1
    · refine ⟨?_, ?_, ?_⟩
      · intro t ht
        simp [startedTrace] at ht
      · intro _
        rfl
      · intro fid hfid
        simp [startedTrace, startedRoot] at hfid
    · intro op hop br hbr
      simp only [List.mem_singleton] at hop
      subst hop
      injection hbr with hb
      exact hb.symm

end ManagedIndexing
